import Mathlib

/-
Verification development for the moco-mcp repository.

The development shallowly embeds the caching layer (src/utils/cache.ts) and the
paginated fetch client (src/services/mocoApi.ts) in Lean 4 and proves the frozen
claims about them.

Modelling conventions:
  * JavaScript timestamps (Date.now(), expiresAt) are integers (milliseconds).
  * The Map-backed stores become functions from String keys to optional values.
  * The cooperative (single-threaded, run-to-completion) semantics of the
    JavaScript event loop is captured by making every synchronous code section
    of the source one atomic Lean step.  `Cache.getOrSet` in the source runs
    synchronously from entry until it returns a promise (there is no `await`
    before `return`), so the whole body is one step that yields an outcome:
    either a direct bypass invocation, a cache hit, joining an in-flight fetch,
    or starting (and synchronously registering) a new fetch.  The `.then`/
    `.finally` continuations attached to the fetch promise run later, in their
    own synchronous step, modelled by `Cache.settleFetch`.
  * In-flight fetch promises are identified by natural-number ids; the promise
    returned to every caller is identified by the id carried in its outcome.
-/

/-! ## Cache engine (src/utils/cache.ts) -/

/-- Mirrors `MemoryCacheEntry<T>`: a stored value with an optional absolute
expiry timestamp in milliseconds (absent means the entry never expires). -/
structure MemoryCacheEntry (V : Type) where
  value : V
  expiresAt : Option Int
deriving Repr, DecidableEq

/-- The backing `Map` of `MemoryCacheStore`, as a function from keys. -/
abbrev StoreFun (V : Type) := String → Option (MemoryCacheEntry V)

/-- Mirrors `MemoryCacheStore.get` (cache.ts lines 25-37): an entry whose
expiry time has been reached is deleted and reported absent; the function
returns the possibly-updated store together with the read result.  `now` is
the value of `Date.now()` during the call. -/
def MemoryCacheStore.get {V : Type} (store : StoreFun V) (now : Int) (key : String) :
    StoreFun V × Option V :=
  match store key with
  | none => (store, none)
  | some entry =>
    match entry.expiresAt with
    | some exp =>
      if exp ≤ now then (fun k => if k = key then none else store k, none)
      else (store, some entry.value)
    | none => (store, some entry.value)

/-- Mirrors `MemoryCacheStore.set` (cache.ts lines 39-48): a defined
non-positive TTL deletes the entry; a positive TTL stores the value with
expiry `now + ttl * 1000`; an absent TTL stores the value without expiry. -/
def MemoryCacheStore.set {V : Type} (store : StoreFun V) (now : Int) (key : String)
    (value : V) (ttlSeconds : Option Int) : StoreFun V :=
  match ttlSeconds with
  | some t =>
    if t ≤ 0 then fun k => if k = key then none else store k
    else fun k => if k = key then some ⟨value, some (now + t * 1000)⟩ else store k
  | none => fun k => if k = key then some ⟨value, none⟩ else store k

/-- The state of a `Cache` facade: the backing store plus the
`pendingFetches` map from keys to the id of the in-flight fetch. -/
structure CacheState (V : Type) where
  store : StoreFun V
  pendingFetches : String → Option Nat

/-- The empty cache state (fresh `Cache` with a fresh `MemoryCacheStore`). -/
def Cache.empty (V : Type) : CacheState V :=
  { store := fun _ => none, pendingFetches := fun _ => none }

/-- What one synchronous run of `Cache.getOrSet` decides for its caller. -/
inductive FetchOutcome (V : Type) where
  /-- with `ttlSeconds <= 0` the fetcher is invoked directly for this call alone. -/
  | bypass
  /-- an unexpired stored value was returned without any fetch. -/
  | hit (value : V)
  /-- the caller was handed the already in-flight fetch with this id. -/
  | joinPending (fetchId : Nat)
  /-- a new fetch with this id was started and registered synchronously. -/
  | startFetch (fetchId : Nat)
deriving Repr, DecidableEq

/-- Mirrors the synchronous body of `Cache.getOrSet` (cache.ts lines 84-115).
`freshId` is the id the new fetch promise would get if one is created.  The
registration `pendingFetches.set(key, pending)` happens inside this same
atomic step, exactly as in the source, where no suspension point lies between
the pending-table lookup and the registration. -/
def Cache.getOrSet {V : Type} (s : CacheState V) (now : Int) (key : String)
    (ttlSeconds : Int) (freshId : Nat) : CacheState V × FetchOutcome V :=
  if ttlSeconds ≤ 0 then (s, .bypass)
  else
    let gs := MemoryCacheStore.get s.store now key
    let s1 : CacheState V := { s with store := gs.1 }
    match gs.2 with
    | some v => (s1, .hit v)
    | none =>
      match s1.pendingFetches key with
      | some fid => (s1, .joinPending fid)
      | none =>
        ({ s1 with
            pendingFetches := fun k => if k = key then some freshId else s1.pendingFetches k },
         .startFetch freshId)

/-- Mirrors the continuation chain attached to the fetch promise in
`Cache.getOrSet` (cache.ts lines 103-111): when the fetch for `key` settles,
a successful result is stored via `set(key, result, ttlSeconds)` and the
pending record for `key` is removed; a failure only removes the pending
record, leaving the store untouched.  `now` is `Date.now()` at settlement. -/
def Cache.settleFetch {V E : Type} (s : CacheState V) (now : Int) (key : String)
    (ttlSeconds : Int) (result : Except E V) : CacheState V :=
  match result with
  | .ok v =>
    { store := MemoryCacheStore.set s.store now key v (some ttlSeconds),
      pendingFetches := fun k => if k = key then none else s.pendingFetches k }
  | .error _ =>
    { s with pendingFetches := fun k => if k = key then none else s.pendingFetches k }

/-- Mirrors `Cache.clear` (cache.ts lines 79-82): empties the store and
discards every pending-fetch record. -/
def Cache.clear {V : Type} (_s : CacheState V) : CacheState V :=
  { store := fun _ => none, pendingFetches := fun _ => none }

/-- The value a caller ultimately observes, given how each fetch id settles
and what a direct bypass invocation of the fetcher returns.  A caller that
joined a pending fetch awaits the very same promise as the caller that
started it, so both read `fetchResults` at the same id. -/
def Cache.callerResult {V E : Type} (o : FetchOutcome V)
    (fetchResults : Nat → Except E V) (directResult : Except E V) : Except E V :=
  match o with
  | .bypass => directResult
  | .hit v => .ok v
  | .joinPending fid => fetchResults fid
  | .startFetch fid => fetchResults fid

/-- A sequence of logically-concurrent `getOrSet` calls for one key: each
list element is the `Date.now()` of the call and the fresh id its fetch
would get.  No fetch settles in between (the scenario of the single-flight
property). -/
def Cache.runCalls {V : Type} (s : CacheState V) (key : String) (ttlSeconds : Int) :
    List (Int × Nat) → CacheState V × List (FetchOutcome V)
  | [] => (s, [])
  | (t, fid) :: rest =>
    let step := Cache.getOrSet s t key ttlSeconds fid
    let restRun := Cache.runCalls step.1 key ttlSeconds rest
    (restRun.1, step.2 :: restRun.2)

/-! ## Paginated fetch client (src/services/mocoApi.ts) -/

/-- One upstream response: the JSON array body together with the three
pagination headers `X-Page`, `X-Total` and `X-Per-Page`.  A header is `none`
when absent; `some n` when present and parsing to the integer `n`. -/
structure PageResponse (T : Type) where
  data : List T
  xPage : Option Int
  xTotal : Option Int
  xPerPage : Option Int

/-- JavaScript `Math.ceil(totalItems / itemsPerPage)` on integer operands.
Because `Int` division with Mathlib is Euclidean (floor for a positive
divisor), `-(-total / per)` is the exact ceiling whenever `0 < per`, the only
regime the theorems below use. -/
def ceilDivJs (total per : Int) : Int := -(-total / per)

/-- The `hasMorePages` update of `fetchAllPages` (mocoApi.ts lines 237-249):
with all three headers present the loop continues while
`currentPage < Math.ceil(totalItems / itemsPerPage)`; with any header absent
the response is the single and final page. -/
def MocoApiService.hasMorePages {T : Type} (r : PageResponse T) (currentPage : Int) : Bool :=
  match r.xPage, r.xTotal, r.xPerPage with
  | some _, some total, some per => decide (currentPage < ceilDivJs total per)
  | _, _, _ => false

/-- The loop of `fetchAllPages` (mocoApi.ts lines 227-252), with explicit
fuel since the source loop has no intrinsic termination bound.  `responses`
maps a page number to the upstream response for the request carrying
`page=<that number>`.  Returns the accumulated items and the number of
requests issued, or `none` if `fuel` requests did not finish the loop. -/
def MocoApiService.fetchAllPagesAux {T : Type} (responses : Int → PageResponse T) :
    Nat → Int → List T → Nat → Option (List T × Nat)
  | 0, _, _, _ => none
  | fuel + 1, currentPage, allItems, reqs =>
    let r := responses currentPage
    if MocoApiService.hasMorePages r currentPage then
      MocoApiService.fetchAllPagesAux responses fuel (currentPage + 1) (allItems ++ r.data) (reqs + 1)
    else
      some (allItems ++ r.data, reqs + 1)

/-- Mirrors `fetchAllPages` (mocoApi.ts lines 222-255): starts at page 1 with an
empty accumulator. -/
def MocoApiService.fetchAllPages {T : Type} (responses : Int → PageResponse T)
    (fuel : Nat) : Option (List T × Nat) :=
  MocoApiService.fetchAllPagesAux responses fuel 1 [] 0

/-- Concatenation of the bodies of `n` consecutive pages starting at `k`,
in request order. -/
def pagesConcat {T : Type} (responses : Int → PageResponse T) : Int → Nat → List T
  | _, 0 => []
  | k, n + 1 => (responses k).data ++ pagesConcat responses (k + 1) n

/-! ## JavaScript string primitives used by the service -/

/-- JavaScript `String.prototype.toLowerCase` (ASCII-faithful model). -/
def jsToLower (s : String) : String := String.mk (s.toList.map Char.toLower)

/-- JavaScript `String.prototype.trim`: strips leading and trailing
whitespace. -/
def jsTrim (s : String) : String :=
  String.mk (((s.toList.dropWhile Char.isWhitespace).reverse.dropWhile
    Char.isWhitespace).reverse)

/-- JavaScript `haystack.includes(needle)`: substring containment. -/
def strIncludes (s sub : String) : Bool := decide (sub.toList <:+: s.toList)

/-- JavaScript `haystack.indexOf(needle)` restricted to a successful search:
index of the first occurrence of `needle`, `none` when absent (`-1` in JS). -/
def findSubIdx (needle : List Char) : List Char → Option Nat
  | [] => if needle = [] then some 0 else none
  | c :: rest =>
    if needle.isPrefixOf (c :: rest) then some 0
    else (findSubIdx needle rest).map (fun i => i + 1)

/-! ## Request-header sanitization (mocoApi.ts lines 37-61) -/

/-- A request-headers record: the `Authorization` entry (absent or present)
plus all remaining header entries. -/
structure RequestHeaders where
  authorization : Option String
  others : List (String × String)
deriving Repr, DecidableEq

/-- The transform `sanitizeRequestHeaders` applies to the `Authorization`
value (mocoApi.ts lines 43-60): locate `token=` case-insensitively; absent
marker means the whole value becomes `[REDACTED]`; a secret of more than 8
characters keeps its first 4 and last 4 characters around `...`; a secret of
at most 8 characters becomes `max(length, 4)` asterisks after the kept
prefix. -/
def MocoApiService.sanitizeAuthValue (authValue : String) : String :=
  match findSubIdx "token=".toList (jsToLower authValue).toList with
  | none => "[REDACTED]"
  | some idx =>
    let cs := authValue.toList
    let keptPart := cs.take (idx + 6)
    let tokenVal := cs.drop (idx + 6)
    if tokenVal.length ≤ 8 then
      String.mk (keptPart ++ List.replicate (max tokenVal.length 4) '*')
    else
      String.mk (keptPart ++
        (tokenVal.take 4 ++ ("...".toList ++ tokenVal.drop (tokenVal.length - 4))))

/-- Mirrors `MocoApiService.sanitizeRequestHeaders` (mocoApi.ts lines 37-61):
a falsy (absent or empty) `Authorization` leaves the record unchanged,
otherwise only the `Authorization` value is replaced. -/
def MocoApiService.sanitizeRequestHeaders (h : RequestHeaders) : RequestHeaders :=
  match h.authorization with
  | none => h
  | some a =>
    if a.isEmpty then h
    else { h with authorization := some (MocoApiService.sanitizeAuthValue a) }

/-! ## User-directory cache key (mocoApi.ts lines 265-292) -/

/-- The tag normalization of `getCachedUsers` (mocoApi.ts lines 266-269):
trim every tag, drop falsy (empty) tags, sort.  (The source sorts with
`localeCompare`; a fixed total order on strings models it.)  Note the source
never deduplicates. -/
def MocoApiService.normalizedTags (tags : Option (List String)) : Option (List String) :=
  tags.map fun ts =>
    List.insertionSort (fun a b => a ≤ b) ((ts.map jsTrim).filter fun t => !t.isEmpty)

/-- The cache key computed by `getCachedUsers` (mocoApi.ts lines 271-277):
`users:<0|1>:<sorted tags joined by | , or - when there are none>`. -/
def MocoApiService.usersCacheKey (includeArchived : Bool) (tags : Option (List String)) : String :=
  let nt := MocoApiService.normalizedTags tags
  let tagsPart : String :=
    match nt with
    | some l => if 0 < l.length then String.intercalate "|" l else "-"
    | none => "-"
  String.intercalate ":" ["users", if includeArchived then "1" else "0", tagsPart]

/-! ## Text search (mocoApi.ts lines 327-402) -/

/-- The searchable fields of a MoCo project used by `searchProjects`. -/
structure Project where
  id : Int
  name : String
  description : Option String
deriving Repr, DecidableEq

/-- The predicate of `searchProjects` (mocoApi.ts lines 332-335): the
lowercased name, or the (truthy) lowercased description, contains the
lowercased query. -/
def MocoApiService.projectMatches (lowerQuery : String) (p : Project) : Bool :=
  strIncludes (jsToLower p.name) lowerQuery ||
    (match p.description with
     | some d => !d.isEmpty && strIncludes (jsToLower d) lowerQuery
     | none => false)

/-- Mirrors `MocoApiService.searchProjects` (mocoApi.ts lines 327-336) after
the cached project set has been obtained: the query is lowercased but NOT
trimmed, and there is no empty-query short-circuit in the source. -/
def MocoApiService.searchProjects (allProjects : List Project) (query : String) : List Project :=
  allProjects.filter (MocoApiService.projectMatches (jsToLower query))

/-- Sub-objects `user.unit` / `user.role`: only their `name` matters here. -/
structure NamedRef where
  name : Option String
deriving Repr, DecidableEq

/-- The searchable fields of a MoCo user used by `searchUsers`. -/
structure User where
  firstname : Option String
  lastname : Option String
  email : Option String
  info : Option String
  tags : Option (List String)
  unit : Option NamedRef
  role : Option NamedRef
  mobile_phone : Option String
  work_phone : Option String
deriving Repr, DecidableEq

/-- A truthy optional string contributes itself as a search target. -/
def optNonEmpty (s : Option String) : List String :=
  match s with
  | some t => if t.isEmpty then [] else [t]
  | none => []

/-- The `searchTargets` list built by `searchUsers` (mocoApi.ts lines
358-398), in source push order: first name, last name, trimmed full name,
email, free-text info, space-joined tags, unit name, role name, mobile and
work phone — each only when truthy. -/
def MocoApiService.userSearchTargets (u : User) : List String :=
  optNonEmpty u.firstname ++ optNonEmpty u.lastname ++
    optNonEmpty (some (jsTrim ((u.firstname.getD "") ++ " " ++ (u.lastname.getD "")))) ++
    optNonEmpty u.email ++ optNonEmpty u.info ++
    (match u.tags with
     | some ts => if 0 < ts.length then [String.intercalate " " ts] else []
     | none => []) ++
    optNonEmpty (u.unit.bind fun x => x.name) ++
    optNonEmpty (u.role.bind fun x => x.name) ++
    optNonEmpty u.mobile_phone ++ optNonEmpty u.work_phone

/-- The predicate of `searchUsers` (mocoApi.ts line 400): some target,
lowercased, contains the normalized query. -/
def MocoApiService.userMatches (normalizedQuery : String) (u : User) : Bool :=
  (MocoApiService.userSearchTargets u).any fun target =>
    strIncludes (jsToLower target) normalizedQuery

/-- Mirrors `MocoApiService.searchUsers` (mocoApi.ts lines 344-402) after the
cached user set has been obtained: the query is trimmed and lowercased, an
empty normalized query short-circuits to the full set. -/
def MocoApiService.searchUsers (allUsers : List User) (query : String) : List User :=
  let normalizedQuery := jsToLower (jsTrim query)
  if normalizedQuery.length = 0 then allUsers
  else allUsers.filter (MocoApiService.userMatches normalizedQuery)

/-! ## Holiday 404 normalization (mocoApi.ts lines 440-454) -/

/-- Modelled from the spec: `handleMocoApiError` lives in
`src/utils/errorHandler.ts`, which is not among the provided sources.  The
spec states the error-classification collaborator turns an HTTP failure into
a status-aware human-readable message and maps a 404 to
"Resource not found". -/
def handleMocoApiError (status : Int) (statusText : String) : String :=
  if status = 404 then "Resource not found"
  else "HTTP error " ++ toString status ++ ": " ++ statusText

/-- Mirrors the catch handler of `MocoApiService.getUserHolidays`
(mocoApi.ts lines 440-454): `upstream` is the settled result of the
`/users/holidays` request for the chosen year; an error whose message
contains "Resource not found" becomes the empty array, every other outcome
passes through unchanged. -/
def MocoApiService.getUserHolidays {H : Type} (upstream : Except String (List H)) :
    Except String (List H) :=
  match upstream with
  | .ok v => .ok v
  | .error msg =>
    if strIncludes msg "Resource not found" then .ok []
    else .error msg

/-! ## Concrete fixtures used by witnesses and counterexamples -/

/-- A cache holding `5` under `"k"` with expiry timestamp `60100`. -/
def hitState : CacheState Nat :=
  { store := fun k => if k = "k" then some ⟨5, some 60100⟩ else none,
    pendingFetches := fun _ => none }

/-- A three-page upstream: 25 total items at 10 per page, two sample items
on each page. -/
def threePageResponses : Int → PageResponse Nat :=
  fun p => { data := [10 * p.toNat, 10 * p.toNat + 1], xPage := some p,
             xTotal := some 25, xPerPage := some 10 }

/-- An upstream whose first response lacks `X-Total`. -/
def singlePageResponses : Int → PageResponse Nat :=
  fun p => { data := [p.toNat], xPage := some p, xTotal := none, xPerPage := some 10 }

/-- An upstream whose every response carries all three pagination headers,
with `X-Per-Page = 1 > 0` and non-negative `X-Total`, yet always reports one
more total page than the page just served. -/
def advResponses : Int → PageResponse Unit :=
  fun p => { data := [], xPage := some p, xTotal := some (p + 1), xPerPage := some 1 }

/-- A project whose searchable fields contain no whitespace. -/
def sampleProject : Project := { id := 1, name := "Alpha", description := none }

/-- A sample user for the search witnesses. -/
def sampleUser : User :=
  { firstname := some "Ada", lastname := some "Lovelace",
    email := some "ada@example.com", info := none, tags := some ["ops"],
    unit := none, role := none, mobile_phone := none, work_phone := none }

/-- A headers record without an `Authorization` entry. -/
def rhNone : RequestHeaders :=
  { authorization := none, others := [("Accept", "application/json")] }

/-- A headers record whose `Authorization` value has no `token=` marker. -/
def rhBearer : RequestHeaders :=
  { authorization := some "Bearer xyz", others := [] }

/-! ## Helper lemmas about single `getOrSet` steps -/

/-- Reading an absent key leaves the store untouched. -/
theorem MemoryCacheStore.get_none {V : Type} (store : StoreFun V) (now : Int)
    (key : String) (h : store key = none) :
    MemoryCacheStore.get store now key = (store, none) := by
  unfold MemoryCacheStore.get
  rw [h]

/-- A `getOrSet` call with positive TTL, no stored entry and no pending fetch
starts a fresh fetch and registers it in the very same synchronous step. -/
theorem Cache.getOrSet_start {V : Type} (s : CacheState V) (now : Int) (key : String)
    (ttl : Int) (fid : Nat) (hs : s.store key = none)
    (hp : s.pendingFetches key = none) (httl : 0 < ttl) :
    Cache.getOrSet s now key ttl fid =
      ({ s with pendingFetches := fun k => if k = key then some fid else s.pendingFetches k },
       FetchOutcome.startFetch fid) := by
  unfold Cache.getOrSet
  rw [if_neg (by omega), MemoryCacheStore.get_none s.store now key hs]
  simp [hp]

/-- A `getOrSet` call with positive TTL, no stored entry and an in-flight
fetch joins that fetch and changes nothing. -/
theorem Cache.getOrSet_join {V : Type} (s : CacheState V) (now : Int) (key : String)
    (ttl : Int) (fid fid2 : Nat) (hs : s.store key = none)
    (hp : s.pendingFetches key = some fid) (httl : 0 < ttl) :
    Cache.getOrSet s now key ttl fid2 = (s, FetchOutcome.joinPending fid) := by
  unfold Cache.getOrSet
  rw [if_neg (by omega), MemoryCacheStore.get_none s.store now key hs]
  simp [hp]

/-- While a fetch for `key` is in flight and nothing has been stored for
`key`, every further logically-concurrent call joins that same fetch and the
state never changes. -/
theorem Cache.runCalls_join {V : Type} (key : String) (ttl : Int) (fid : Nat)
    (httl : 0 < ttl) :
    ∀ (calls : List (Int × Nat)) (s : CacheState V), s.store key = none →
      s.pendingFetches key = some fid →
      Cache.runCalls s key ttl calls =
        (s, calls.map fun _ => FetchOutcome.joinPending fid) := by
  intro calls
  induction calls with
  | nil => intro s _ _; rfl
  | cons c rest ih =>
    intro s hs hp
    obtain ⟨t, fid2⟩ := c
    simp only [Cache.runCalls, Cache.getOrSet_join s t key ttl fid fid2 hs hp httl,
      ih s hs hp, List.map_cons]

/-! ## Claim C1: single-flight de-duplication -/

/-- Claim C1: for every key and every ttl > 0, if N logically-concurrent
`getOrSet` calls are made before the first fetch settles, the first call
starts exactly one fetch and every later call joins it (so the fetcher is
invoked exactly once), the starting call registers the pending record within
its own synchronous step, and every caller resolves to that single fetch's
result — its value or its failure. -/
theorem claimC1_single_flight {V : Type} (s : CacheState V) (key : String)
    (ttl t : Int) (fid : Nat) (rest : List (Int × Nat))
    (hs : s.store key = none) (hp : s.pendingFetches key = none) (httl : 0 < ttl) :
    (Cache.runCalls s key ttl ((t, fid) :: rest)).2
        = FetchOutcome.startFetch fid :: (rest.map fun _ => FetchOutcome.joinPending fid)
      ∧ (Cache.getOrSet s t key ttl fid).1.pendingFetches key = some fid
      ∧ ∀ (E : Type) (fetchResults : Nat → Except E V) (directResult : Except E V),
          ∀ o ∈ (Cache.runCalls s key ttl ((t, fid) :: rest)).2,
            Cache.callerResult o fetchResults directResult = fetchResults fid := by
  have hstep := Cache.getOrSet_start s t key ttl fid hs hp httl
  have hs1 : (Cache.getOrSet s t key ttl fid).1.store key = none := by
    rw [hstep]; exact hs
  have hp1 : (Cache.getOrSet s t key ttl fid).1.pendingFetches key = some fid := by
    rw [hstep]; simp
  have houts : (Cache.runCalls s key ttl ((t, fid) :: rest)).2
      = FetchOutcome.startFetch fid :: (rest.map fun _ => FetchOutcome.joinPending fid) := by
    simp only [Cache.runCalls,
      Cache.runCalls_join key ttl fid httl rest (Cache.getOrSet s t key ttl fid).1 hs1 hp1]
    rw [hstep]
  refine ⟨houts, hp1, ?_⟩
  intro E fetchResults directResult o ho
  rw [houts] at ho
  rcases List.mem_cons.mp ho with h | h
  · rw [h]; rfl
  · obtain ⟨c, _, hc⟩ := List.mem_map.mp h
    rw [← hc]; rfl

/-- Witness for C1: on an empty cache, three concurrent calls under key "k"
with ttl 60 produce one started fetch (id 7) and two joins of it. -/
theorem claimC1_witness :
    (0 : Int) < 60
      ∧ (Cache.runCalls (Cache.empty Nat) "k" 60 [(0, 7), (1, 8), (2, 9)]).2
          = [FetchOutcome.startFetch 7, FetchOutcome.joinPending 7, FetchOutcome.joinPending 7]
      ∧ (Cache.getOrSet (Cache.empty Nat) 0 "k" 60 7).1.pendingFetches "k" = some 7 := by
  have h := claimC1_single_flight (Cache.empty Nat) "k" 60 0 7 [(1, 8), (2, 9)] rfl rfl
    (by decide)
  exact ⟨by decide, by rw [h.1]; rfl, h.2.1⟩

/-! ## Claim C2: TTL policy of getOrSet -/

/-- Claim C2: a value stored at time `t0` with ttl > 0 carries expiry
`t0 + ttl*1000`; while strictly less than that timestamp a `getOrSet` call
returns it as a hit without any fetch; once the expiry timestamp is reached
the entry is treated as absent, deleted on read, and a fresh fetch starts;
and with ttl ≤ 0 every call bypasses both the store and the pending-fetch
de-duplication, invoking the fetcher once per call and changing nothing. -/
theorem claimC2_ttl_policy {V : Type} (key : String) (v : V) :
    (∀ (s : CacheState V) (t0 ttl : Int), 0 < ttl →
        (Cache.settleFetch s t0 key ttl (Except.ok (ε := Unit) v)).store key
          = some ⟨v, some (t0 + ttl * 1000)⟩)
      ∧ (∀ (s : CacheState V) (now exp ttl : Int) (fid : Nat),
          s.store key = some ⟨v, some exp⟩ → now < exp → 0 < ttl →
          Cache.getOrSet s now key ttl fid = (s, FetchOutcome.hit v))
      ∧ (∀ (s : CacheState V) (now exp ttl : Int) (fid : Nat),
          s.store key = some ⟨v, some exp⟩ → exp ≤ now →
          s.pendingFetches key = none → 0 < ttl →
          (Cache.getOrSet s now key ttl fid).2 = FetchOutcome.startFetch fid
            ∧ (Cache.getOrSet s now key ttl fid).1.store key = none)
      ∧ (∀ (s : CacheState V) (ttl : Int) (calls : List (Int × Nat)), ttl ≤ 0 →
          Cache.runCalls s key ttl calls = (s, calls.map fun _ => FetchOutcome.bypass)) := by
  refine ⟨?_, ?_, ?_, ?_⟩
  · intro s t0 ttl httl
    simp [Cache.settleFetch, MemoryCacheStore.set, not_le.mpr httl]
  · intro s now exp ttl fid hsk hlt httl
    unfold Cache.getOrSet
    rw [if_neg (not_le.mpr httl)]
    unfold MemoryCacheStore.get
    rw [hsk]
    simp [not_le.mpr hlt]
  · intro s now exp ttl fid hsk hle hp httl
    unfold Cache.getOrSet
    rw [if_neg (not_le.mpr httl)]
    unfold MemoryCacheStore.get
    rw [hsk]
    simp [hle, hp]
  · intro s ttl calls httl
    induction calls with
    | nil => rfl
    | cons c rest ih =>
      obtain ⟨t, fid⟩ := c
      simp only [Cache.runCalls, Cache.getOrSet, if_pos httl, ih, List.map_cons]

/-- Witness for C2 at concrete inputs: storing 5 at time 100 with ttl 60
yields expiry 60100; at time 50000 the entry is a hit; at time 60100 it is
expired, deleted, and a new fetch starts; and ttl 0 bypasses twice. -/
theorem claimC2_witness :
    (Cache.settleFetch (Cache.empty Nat) 100 "k" 60 (Except.ok (ε := Unit) 5)).store "k"
        = some ⟨5, some 60100⟩
      ∧ Cache.getOrSet hitState 50000 "k" 60 3 = (hitState, FetchOutcome.hit 5)
      ∧ (Cache.getOrSet hitState 60100 "k" 60 3).2 = FetchOutcome.startFetch 3
      ∧ (Cache.getOrSet hitState 60100 "k" 60 3).1.store "k" = none
      ∧ Cache.runCalls hitState "k" 0 [(0, 1), (2, 3)]
          = (hitState, [FetchOutcome.bypass, FetchOutcome.bypass]) := by
  have h := claimC2_ttl_policy "k" (5 : Nat)
  have hexp := h.2.2.1 hitState 60100 60100 60 3 (by simp [hitState]) (by decide)
    (by simp [hitState]) (by decide)
  exact ⟨h.1 (Cache.empty Nat) 100 60 (by decide),
    h.2.1 hitState 50000 60100 60 3 (by simp [hitState]) (by decide) (by decide),
    hexp.1, hexp.2,
    by have hb := h.2.2.2 hitState 0 [(0, 1), (2, 3)] (by decide); simpa using hb⟩

/-! ## Claim C3: fetch-failure atomicity -/

/-- Claim C3: starting from a state with no entry and no pending fetch for
`key`, a `getOrSet` with ttl > 0 starts a fetch; if that fetch settles with a
failure, the store is left completely unchanged, the pending record for
`key` is removed (as it also is on success), every caller sharing the fetch
receives the same failure, and the next `getOrSet` after settlement starts a
fresh fetch. -/
theorem claimC3_failure_atomicity {V E : Type} (s : CacheState V) (key : String)
    (ttl t : Int) (fid : Nat) (e : E)
    (hs : s.store key = none) (hp : s.pendingFetches key = none) (httl : 0 < ttl) :
    (Cache.getOrSet s t key ttl fid).2 = FetchOutcome.startFetch fid
      ∧ (∀ t1,
          (Cache.settleFetch (Cache.getOrSet s t key ttl fid).1 t1 key ttl
              (Except.error (α := V) e)).store
            = (Cache.getOrSet s t key ttl fid).1.store)
      ∧ (∀ t1 (r : Except E V),
          (Cache.settleFetch (Cache.getOrSet s t key ttl fid).1 t1 key ttl r).pendingFetches key
            = none)
      ∧ (∀ (fetchResults : Nat → Except E V) (directResult : Except E V),
          fetchResults fid = Except.error e →
          Cache.callerResult (FetchOutcome.startFetch fid) fetchResults directResult
              = Except.error e
            ∧ Cache.callerResult (FetchOutcome.joinPending fid) fetchResults directResult
              = Except.error e)
      ∧ (∀ t1 t2 (fid2 : Nat),
          (Cache.getOrSet
              (Cache.settleFetch (Cache.getOrSet s t key ttl fid).1 t1 key ttl
                (Except.error (α := V) e))
              t2 key ttl fid2).2
            = FetchOutcome.startFetch fid2) := by
  have hstep := Cache.getOrSet_start s t key ttl fid hs hp httl
  refine ⟨by rw [hstep], ?_, ?_, ?_, ?_⟩
  · intro t1
    rfl
  · intro t1 r
    cases r <;> simp [Cache.settleFetch]
  · intro fetchResults directResult hfr
    exact ⟨hfr, hfr⟩
  · intro t1 t2 fid2
    have hs2 : (Cache.settleFetch (Cache.getOrSet s t key ttl fid).1 t1 key ttl
        (Except.error (α := V) e)).store key = none := by
      show (Cache.getOrSet s t key ttl fid).1.store key = none
      rw [hstep]; exact hs
    have hp2 : (Cache.settleFetch (Cache.getOrSet s t key ttl fid).1 t1 key ttl
        (Except.error (α := V) e)).pendingFetches key = none := by
      simp [Cache.settleFetch]
    rw [Cache.getOrSet_start _ t2 key ttl fid2 hs2 hp2 httl]

/-- Witness for C3: on an empty cache with key "k" and ttl 60, the failed
fetch leaves the store unchanged, clears the pending record, and the next
call starts fetch id 9. -/
theorem claimC3_witness :
    (Cache.getOrSet (Cache.empty Nat) 0 "k" 60 7).2 = FetchOutcome.startFetch 7
      ∧ (Cache.settleFetch (Cache.getOrSet (Cache.empty Nat) 0 "k" 60 7).1 10 "k" 60
            (Except.error (α := Nat) "boom")).pendingFetches "k" = none
      ∧ (Cache.getOrSet
            (Cache.settleFetch (Cache.getOrSet (Cache.empty Nat) 0 "k" 60 7).1 10 "k" 60
              (Except.error (α := Nat) "boom"))
            20 "k" 60 9).2 = FetchOutcome.startFetch 9 := by
  have h := claimC3_failure_atomicity (Cache.empty Nat) "k" 60 0 7 "boom" rfl rfl (by decide)
  exact ⟨h.1, h.2.2.1 10 (Except.error "boom"), h.2.2.2.2 10 20 9⟩

/-! ## Claim C6: clear() semantics -/

/-- Claim C6: `clear()` empties the store and discards every pending-fetch
record, so after a clear every `getOrSet` with positive ttl starts a fresh
fetch — for any key, even one whose TTL window had not elapsed or whose
fetch was in flight at clear time; yet a fetch already in flight when
`clear()` ran still settles normally and, on success, repopulates the store
with its result after the clear. -/
theorem claimC6_clear_semantics {V : Type} (s : CacheState V) (key : String)
    (ttl now : Int) (fid : Nat) (v : V) (httl : 0 < ttl) :
    (∀ k, (Cache.clear s).store k = none ∧ (Cache.clear s).pendingFetches k = none)
      ∧ (Cache.getOrSet (Cache.clear s) now key ttl fid).2 = FetchOutcome.startFetch fid
      ∧ (Cache.settleFetch (Cache.clear s) now key ttl (Except.ok (ε := Unit) v)).store key
          = some ⟨v, some (now + ttl * 1000)⟩ := by
  refine ⟨fun k => ⟨rfl, rfl⟩, ?_, ?_⟩
  · rw [Cache.getOrSet_start (Cache.clear s) now key ttl fid rfl rfl httl]
  · simp [Cache.settleFetch, Cache.clear, MemoryCacheStore.set, not_le.mpr httl]

/-- Witness for C6: clearing `hitState` (which holds an unexpired entry for
"k") makes the next call at time 0 — inside the original TTL window — start
fetch id 4, and a still-running fetch that settles with 9 repopulates "k". -/
theorem claimC6_witness :
    (0 : Int) < 60
      ∧ (Cache.getOrSet (Cache.clear hitState) 0 "k" 60 4).2 = FetchOutcome.startFetch 4
      ∧ (Cache.settleFetch (Cache.clear hitState) 0 "k" 60
            (Except.ok (ε := Unit) 9)).store "k" = some ⟨9, some 60000⟩ := by
  have h := claimC6_clear_semantics hitState "k" 60 0 4 9 (by decide)
  exact ⟨by decide, h.2.1, h.2.2⟩

/-! ## Helper lemmas about the pagination loop -/

/-- A response missing any of the three pagination headers never continues
the loop. -/
theorem MocoApiService.hasMorePages_missing {T : Type} (r : PageResponse T) (c : Int)
    (h : r.xPage = none ∨ r.xTotal = none ∨ r.xPerPage = none) :
    MocoApiService.hasMorePages r c = false := by
  obtain ⟨d, xp, xt, xpp⟩ := r
  rcases xp with _ | a <;> rcases xt with _ | b <;> rcases xpp with _ | c2 <;>
    simp [MocoApiService.hasMorePages] at h ⊢

/-- Behaviour of the loop against an upstream whose pages `1 .. max 1 N`
all carry the three headers with one fixed total and per-page count:
starting at page `k` with `n` further pages to go, the loop issues exactly
`n + 1` more requests and appends pages `k .. k + n` in order. -/
theorem MocoApiService.fetchAllPagesAux_consistent {T : Type}
    (responses : Int → PageResponse T) (total per N : Int)
    (_hper : 0 < per) (hN : N = ceilDivJs total per)
    (hheads : ∀ p : Int, 1 ≤ p → p ≤ max 1 N →
      (responses p).xPage.isSome ∧ (responses p).xTotal = some total
        ∧ (responses p).xPerPage = some per) :
    ∀ (n : Nat) (k : Int) (fuel : Nat) (acc : List T) (reqs : Nat),
      1 ≤ k → k + n = max 1 N → n + 1 ≤ fuel →
      MocoApiService.fetchAllPagesAux responses fuel k acc reqs
        = some (acc ++ pagesConcat responses k (n + 1), reqs + (n + 1)) := by
  intro n
  induction n with
  | zero =>
    intro k fuel acc reqs hk1 hkN hfuel
    obtain ⟨f, rfl⟩ : ∃ f, fuel = f + 1 := ⟨fuel - 1, by omega⟩
    have hkmax : k ≤ max 1 N := by omega
    obtain ⟨hxp, hxt, hxpp⟩ := hheads k hk1 hkmax
    obtain ⟨xp, hxp2⟩ := Option.isSome_iff_exists.mp hxp
    have hcond : MocoApiService.hasMorePages (responses k) k = false := by
      simp only [MocoApiService.hasMorePages, hxp2, hxt, hxpp, ← hN,
        decide_eq_false_iff_not, not_lt]
      have : k = max 1 N := by omega
      omega
    simp only [MocoApiService.fetchAllPagesAux, hcond, Bool.false_eq_true, if_false]
    simp [pagesConcat]
  | succ n ih =>
    intro k fuel acc reqs hk1 hkN hfuel
    obtain ⟨f, rfl⟩ : ∃ f, fuel = f + 1 := ⟨fuel - 1, by omega⟩
    have hmax1 : 1 < max 1 N := by omega
    have hmaxN : max 1 N = N := by
      rcases le_or_lt N 1 with h | h
      · rw [max_eq_left h] at hmax1; omega
      · exact max_eq_right (le_of_lt h)
    have hkmax : k ≤ max 1 N := by omega
    obtain ⟨hxp, hxt, hxpp⟩ := hheads k hk1 hkmax
    obtain ⟨xp, hxp2⟩ := Option.isSome_iff_exists.mp hxp
    have hcond : MocoApiService.hasMorePages (responses k) k = true := by
      simp only [MocoApiService.hasMorePages, hxp2, hxt, hxpp, ← hN,
        decide_eq_true_eq]
      omega
    simp only [MocoApiService.fetchAllPagesAux, hcond, if_true]
    rw [ih (k + 1) f (acc ++ (responses k).data) (reqs + 1) (by omega) (by omega)
      (by omega)]
    have hpc : pagesConcat responses k (n + 1 + 1)
        = (responses k).data ++ pagesConcat responses (k + 1) (n + 1) := rfl
    rw [hpc, List.append_assoc]
    have : reqs + 1 + (n + 1) = reqs + (n + 1 + 1) := by omega
    rw [this]

/-! ## Claim C4: pagination completeness, order, and request count -/

/-- Claim C4: `fetchAllPages` starts at page 1 and appends each page's items
in request order; with all three headers present the loop continues exactly
while `currentPage < ceil(totalItems / itemsPerPage)`, so a 3-page upstream
yields exactly 3 requests whose bodies are concatenated in page order; with
any header absent exactly that one request is made and only its page's items
are returned. -/
theorem claimC4_pagination :
    (∀ (T : Type) (d : List T) (xp total per c : Int),
        MocoApiService.hasMorePages ⟨d, some xp, some total, some per⟩ c
          = decide (c < ceilDivJs total per))
      ∧ (∀ (T : Type) (responses : Int → PageResponse T) (total per : Int) (fuel : Nat),
          0 < per → ceilDivJs total per = 3 →
          (∀ p : Int, 1 ≤ p → p ≤ 3 →
            (responses p).xPage.isSome ∧ (responses p).xTotal = some total
              ∧ (responses p).xPerPage = some per) →
          3 ≤ fuel →
          MocoApiService.fetchAllPages responses fuel
            = some ((responses 1).data ++ ((responses 2).data ++ (responses 3).data), 3))
      ∧ (∀ (T : Type) (responses : Int → PageResponse T) (fuel : Nat),
          ((responses 1).xPage = none ∨ (responses 1).xTotal = none
            ∨ (responses 1).xPerPage = none) →
          1 ≤ fuel →
          MocoApiService.fetchAllPages responses fuel
            = some ((responses 1).data, 1)) := by
  refine ⟨fun T d xp total per c => rfl, ?_, ?_⟩
  · intro T responses total per fuel hper hceil hheads hfuel
    have h := MocoApiService.fetchAllPagesAux_consistent responses total per 3 hper
      hceil.symm
      (by
        intro p hp1 hp3
        exact hheads p hp1 (by omega))
      2 1 fuel [] 0 le_rfl (by norm_num) (by omega)
    rw [MocoApiService.fetchAllPages, h]
    simp [pagesConcat]
  · intro T responses fuel hmiss hfuel
    obtain ⟨f, rfl⟩ : ∃ f, fuel = f + 1 := ⟨fuel - 1, by omega⟩
    rw [MocoApiService.fetchAllPages]
    simp only [MocoApiService.fetchAllPagesAux,
      MocoApiService.hasMorePages_missing (responses 1) 1 hmiss, Bool.false_eq_true,
      if_false]
    simp

/-- Witness for C4: the concrete 3-page upstream (25 items, 10 per page)
yields exactly 3 requests and the pages concatenated in order; an upstream
missing `X-Total` yields exactly one request with only page 1's items. -/
theorem claimC4_witness :
    MocoApiService.fetchAllPages threePageResponses 3
        = some ([10, 11, 20, 21, 30, 31], 3)
      ∧ MocoApiService.fetchAllPages singlePageResponses 5 = some ([1], 1) := by
  have h := claimC4_pagination
  constructor
  · have h2 := h.2.1 Nat threePageResponses 25 10 3 (by decide) (by decide)
      (fun p _ _ => ⟨rfl, rfl, rfl⟩) (by decide)
    rw [h2]; decide
  · have h3 := h.2.2 Nat singlePageResponses 5 (Or.inr (Or.inl rfl)) (by decide)
    rw [h3]; decide

/-! ## Claim C10: termination of the pagination loop -/

/-- Counterexample to C10 as stated: the claim asserts that for EVERY
sequence of upstream responses whose present headers parse to a strictly
positive `X-Per-Page` and non-negative `X-Total`, only finitely many
requests are issued, bounded by `max(1, ceil(totalItems / itemsPerPage))`.
`advResponses` carries all three headers on every response with
`X-Per-Page = 1` and `X-Total = page + 1` (so the bound computed from its
first response is `ceil(2 / 1) = 2`), yet after 20 requests the loop has
still not terminated: the per-response recomputation of `totalPages` lets
the upstream move the goal one page further each time, so no finite bound
holds. -/
theorem claimC10_counterexample :
    (advResponses 1).xPage = some 1
      ∧ (advResponses 1).xTotal = some 2
      ∧ (advResponses 1).xPerPage = some 1
      ∧ ceilDivJs 2 1 = 2
      ∧ MocoApiService.fetchAllPages advResponses 20 = none := by
  exact ⟨rfl, rfl, rfl, by decide, by decide⟩

/-- Claim C10 (amended): the loop's only termination guarantee is
conditional on one fixed pagination header pair across responses — when
every response up to the derived bound reports the same `X-Total = total`
and `X-Per-Page = per` with `per > 0`, the loop issues exactly
`max(1, ceil(total / per))` requests (its guard strictly decreases because
`currentPage` increments while `totalPages` stays fixed), returning all
pages in order; and a response at page 1 missing any header means exactly
one request. -/
theorem claimC10_termination :
    (∀ (T : Type) (responses : Int → PageResponse T) (total per : Int) (fuel : Nat),
        0 < per →
        (∀ p : Int, 1 ≤ p → p ≤ max 1 (ceilDivJs total per) →
          (responses p).xPage.isSome ∧ (responses p).xTotal = some total
            ∧ (responses p).xPerPage = some per) →
        (max 1 (ceilDivJs total per)).toNat ≤ fuel →
        MocoApiService.fetchAllPages responses fuel
          = some (pagesConcat responses 1 (max 1 (ceilDivJs total per)).toNat,
              (max 1 (ceilDivJs total per)).toNat))
      ∧ (∀ (T : Type) (responses : Int → PageResponse T) (fuel : Nat),
          ((responses 1).xPage = none ∨ (responses 1).xTotal = none
            ∨ (responses 1).xPerPage = none) →
          1 ≤ fuel →
          (MocoApiService.fetchAllPages responses fuel).map (fun x => x.2) = some 1) := by
  constructor
  · intro T responses total per fuel hper hheads hfuel
    have hm1 : 1 ≤ max 1 (ceilDivJs total per) := le_max_left 1 _
    have h := MocoApiService.fetchAllPagesAux_consistent responses total per
      (ceilDivJs total per) hper rfl hheads
      ((max 1 (ceilDivJs total per)).toNat - 1) 1 fuel [] 0 le_rfl (by omega) (by omega)
    rw [MocoApiService.fetchAllPages, h]
    have hn : (max 1 (ceilDivJs total per)).toNat - 1 + 1
        = (max 1 (ceilDivJs total per)).toNat := by omega
    rw [hn]
    simp
  · intro T responses fuel hmiss hfuel
    obtain ⟨f, rfl⟩ : ∃ f, fuel = f + 1 := ⟨fuel - 1, by omega⟩
    rw [MocoApiService.fetchAllPages]
    simp only [MocoApiService.fetchAllPagesAux,
      MocoApiService.hasMorePages_missing (responses 1) 1 hmiss, Bool.false_eq_true,
      if_false]
    simp

/-- Witness for the amended C10: with the consistent 3-page upstream and
fuel 4 the loop stops after exactly 3 = max(1, ceil(25/10)) requests; with a
missing header it stops after exactly 1 request. -/
theorem claimC10_witness :
    MocoApiService.fetchAllPages threePageResponses 4
        = some ([10, 11, 20, 21, 30, 31], 3)
      ∧ (MocoApiService.fetchAllPages singlePageResponses 2).map (fun x => x.2)
          = some 1 := by
  have h := claimC10_termination
  constructor
  · have h1 := h.1 Nat threePageResponses 25 10 4 (by decide)
      (fun p _ _ => ⟨rfl, rfl, rfl⟩) (by decide)
    rw [h1]; decide
  · exact h.2 Nat singlePageResponses 2 (Or.inr (Or.inl rfl)) (by decide)

/-! ## Helper lemmas for cache hits and sorted tag lists -/

/-- A successful settlement stores the value with expiry `t0 + ttl*1000` and
clears the pending record. -/
theorem Cache.settleFetch_ok {V E : Type} (s : CacheState V) (t0 ttl : Int)
    (key : String) (v : V) (httl : 0 < ttl) :
    (Cache.settleFetch s t0 key ttl (Except.ok (ε := E) v)).store key
        = some ⟨v, some (t0 + ttl * 1000)⟩
      ∧ (Cache.settleFetch s t0 key ttl (Except.ok (ε := E) v)).pendingFetches key
        = none := by
  constructor
  · simp [Cache.settleFetch, MemoryCacheStore.set, not_le.mpr httl]
  · simp [Cache.settleFetch]

/-- A `getOrSet` against an unexpired entry is a pure hit. -/
theorem Cache.getOrSet_hit {V : Type} (s : CacheState V) (now : Int) (key : String)
    (ttl exp : Int) (fid : Nat) (v : V)
    (hsk : s.store key = some ⟨v, some exp⟩) (hlt : now < exp) (httl : 0 < ttl) :
    Cache.getOrSet s now key ttl fid = (s, FetchOutcome.hit v) := by
  unfold Cache.getOrSet
  rw [if_neg (not_le.mpr httl)]
  unfold MemoryCacheStore.get
  rw [hsk]
  simp [not_le.mpr hlt]

/-- Sorting by the fixed total order on strings depends only on the multiset
of elements. -/
theorem insertionSort_perm_eq (l1 l2 : List String) (hp : l1.Perm l2) :
    List.insertionSort (fun a b => a ≤ b) l1
      = List.insertionSort (fun a b => a ≤ b) l2 := by
  exact List.eq_of_perm_of_sorted
    (((List.perm_insertionSort _ l1).trans hp).trans
      (List.perm_insertionSort _ l2).symm)
    (List.sorted_insertionSort _ l1) (List.sorted_insertionSort _ l2)

/-! ## Claim C5: user-directory cache-key normalization -/

/-- Counterexample to C5 as stated: the source sorts the trimmed tags but
never deduplicates them, so the duplicated list `["a", "a"]` and the list
`["a"]` — equal as sets — produce the distinct keys `users:0:a|a` and
`users:0:a`. -/
theorem claimC5_counterexample :
    MocoApiService.usersCacheKey false (some ["a", "a"])
      ≠ MocoApiService.usersCacheKey false (some ["a"]) := by
  have h1 : MocoApiService.usersCacheKey false (some ["a", "a"]) = "users:0:a|a" := by
    have hl : List.filter (fun t => !t.isEmpty) (List.map jsTrim ["a", "a"])
        = ["a", "a"] := by decide
    have hs : List.Sorted (fun a b : String => a ≤ b) ["a", "a"] := by
      simp [List.sorted_cons]
    simp only [MocoApiService.usersCacheKey, MocoApiService.normalizedTags, Option.map, hl,
      List.Sorted.insertionSort_eq hs]
    rfl
  have h2 : MocoApiService.usersCacheKey false (some ["a"]) = "users:0:a" := by
    have hl : List.filter (fun t => !t.isEmpty) (List.map jsTrim ["a"]) = ["a"] := by
      decide
    have hs : List.Sorted (fun a b : String => a ≤ b) ["a"] := by
      simp [List.sorted_cons]
    simp only [MocoApiService.usersCacheKey, MocoApiService.normalizedTags, Option.map, hl,
      List.Sorted.insertionSort_eq hs]
    rfl
  rw [h1, h2]
  decide

/-- Claim C5 (amended): the cache key of `getCachedUsers` is invariant under
permutation of the tags list (tags are trimmed, blank tags dropped, then
sorted — but duplicates are kept, so duplication changes the key); an
absent list, an empty list and a list of only blank tags all collapse to
the canonical key with suffix `-`; and two calls whose trimmed tag lists
are permutations share one cache key, so after the first call's fetch
settles the second call is a pure hit (one fetcher run across both). -/
theorem claimC5_cache_key {V : Type} :
    (∀ (arch : Bool) (ts1 ts2 : List String),
        ((ts1.map jsTrim).filter fun t => !t.isEmpty).Perm
            ((ts2.map jsTrim).filter fun t => !t.isEmpty) →
        MocoApiService.usersCacheKey arch (some ts1)
          = MocoApiService.usersCacheKey arch (some ts2))
      ∧ (∀ (arch : Bool) (ts : List String),
          ((ts.map jsTrim).filter fun t => !t.isEmpty) = [] →
          MocoApiService.usersCacheKey arch (some ts)
            = MocoApiService.usersCacheKey arch none)
      ∧ (∀ (arch : Bool) (ts1 ts2 : List String) (s : CacheState V)
          (t0 t1 t2 ttl : Int) (fid fid2 : Nat) (v : V),
          ((ts1.map jsTrim).filter fun t => !t.isEmpty).Perm
              ((ts2.map jsTrim).filter fun t => !t.isEmpty) →
          s.store (MocoApiService.usersCacheKey arch (some ts1)) = none →
          s.pendingFetches (MocoApiService.usersCacheKey arch (some ts1)) = none →
          0 < ttl → t2 < t1 + ttl * 1000 →
          (Cache.getOrSet s t0 (MocoApiService.usersCacheKey arch (some ts1)) ttl fid).2
              = FetchOutcome.startFetch fid
            ∧ Cache.getOrSet
                (Cache.settleFetch
                  (Cache.getOrSet s t0 (MocoApiService.usersCacheKey arch (some ts1))
                    ttl fid).1
                  t1 (MocoApiService.usersCacheKey arch (some ts1)) ttl
                  (Except.ok (ε := Unit) v))
                t2 (MocoApiService.usersCacheKey arch (some ts2)) ttl fid2
              = (Cache.settleFetch
                  (Cache.getOrSet s t0 (MocoApiService.usersCacheKey arch (some ts1))
                    ttl fid).1
                  t1 (MocoApiService.usersCacheKey arch (some ts1)) ttl
                  (Except.ok (ε := Unit) v), FetchOutcome.hit v)) := by
  have hkeyEq : ∀ (arch : Bool) (ts1 ts2 : List String),
      ((ts1.map jsTrim).filter fun t => !t.isEmpty).Perm
          ((ts2.map jsTrim).filter fun t => !t.isEmpty) →
      MocoApiService.usersCacheKey arch (some ts1)
        = MocoApiService.usersCacheKey arch (some ts2) := by
    intro arch ts1 ts2 hp
    have hsort := insertionSort_perm_eq _ _ hp
    simp only [MocoApiService.usersCacheKey, MocoApiService.normalizedTags, Option.map]
    rw [hsort]
  refine ⟨hkeyEq, ?_, ?_⟩
  · intro arch ts hts
    simp only [MocoApiService.usersCacheKey, MocoApiService.normalizedTags, Option.map, hts]
    rfl
  · intro arch ts1 ts2 s t0 t1 t2 ttl fid fid2 v hp hs hpend httl ht2
    have hk : MocoApiService.usersCacheKey arch (some ts2)
        = MocoApiService.usersCacheKey arch (some ts1) := (hkeyEq arch ts1 ts2 hp).symm
    have hstart := Cache.getOrSet_start s t0
      (MocoApiService.usersCacheKey arch (some ts1)) ttl fid hs hpend httl
    have hsettled := Cache.settleFetch_ok (E := Unit)
      (Cache.getOrSet s t0 (MocoApiService.usersCacheKey arch (some ts1)) ttl fid).1
      t1 ttl (MocoApiService.usersCacheKey arch (some ts1)) v httl
    refine ⟨by rw [hstart], ?_⟩
    rw [hk]
    exact Cache.getOrSet_hit _ t2 _ ttl (t1 + ttl * 1000) fid2 v hsettled.1 ht2 httl

/-- Witness for the amended C5: `["b","a"]` and `["a","b"]` share the key
`users:0:a|b`; `["  ", ""]` collapses to the canonical absent-tags key; and
on an empty cache a call keyed by `["b","a"]` (fetch settling with 42 at
time 5, ttl 60) makes a later call keyed by `["a","b"]` at time 100 a pure
hit of 42. -/
theorem claimC5_witness :
    MocoApiService.usersCacheKey false (some ["b", "a"])
        = MocoApiService.usersCacheKey false (some ["a", "b"])
      ∧ MocoApiService.usersCacheKey true (some ["  ", ""])
          = MocoApiService.usersCacheKey true none
      ∧ (Cache.getOrSet
            (Cache.settleFetch
              (Cache.getOrSet (Cache.empty Nat) 0
                (MocoApiService.usersCacheKey false (some ["b", "a"])) 60 7).1
              5 (MocoApiService.usersCacheKey false (some ["b", "a"])) 60
              (Except.ok (ε := Unit) 42))
            100 (MocoApiService.usersCacheKey false (some ["a", "b"])) 60 8).2
          = FetchOutcome.hit 42 := by
  have h := claimC5_cache_key (V := Nat)
  refine ⟨h.1 false ["b", "a"] ["a", "b"] (by decide),
    h.2.1 true ["  ", ""] (by decide), ?_⟩
  have h3 := (h.2.2 false ["b", "a"] ["a", "b"] (Cache.empty Nat) 0 5 100 60 7 8 42
    (by decide) rfl rfl (by decide) (by decide)).2
  rw [h3]

/-! ## Helper lemmas about the JavaScript string primitives -/

/-- Every string contains the empty substring (JS `s.includes("")`). -/
theorem strIncludes_empty (s : String) : strIncludes s "" = true := by
  simp only [strIncludes, decide_eq_true_eq]
  exact List.nil_infix

/-- Lowercasing maps characters one-to-one, so it preserves length. -/
theorem jsToLower_length (s : String) : (jsToLower s).length = s.length := by
  show (s.toList.map Char.toLower).length = s.length
  rw [List.length_map]
  rfl

/-- A string is empty exactly when its length is zero. -/
theorem string_length_zero_iff (s : String) : s.length = 0 ↔ s = "" := by
  obtain ⟨l⟩ := s
  constructor
  · intro h
    have hl : l = [] := List.length_eq_zero.mp h
    rw [hl]
  · intro h
    rw [h]
    rfl

/-! ## Claim C7: empty-query short-circuit for text search -/

/-- Counterexample to C7 as stated: for the whitespace-only query `" "`,
`searchProjects` does not trim and instead filters by the literal space as a
substring, so the project "Alpha" — whose searchable fields contain no
space — is dropped rather than the full unfiltered set being returned. -/
theorem claimC7_counterexample :
    MocoApiService.searchProjects [sampleProject] " " ≠ [sampleProject] := by
  decide

/-- Claim C7 (amended): `searchUsers` short-circuits every blank query
(empty or whitespace-only) to the full user set, and for a non-blank query
filters by a case-insensitive substring test of the trimmed lowercased
query against the listed user fields; `searchProjects` never trims, so only
the empty query returns the full project set (every lowercased name
vacuously contains the empty substring) while a whitespace-only query
filters by the literal whitespace, the match being a case-insensitive
substring test against name and truthy description. -/
theorem claimC7_search :
    (∀ (us : List User) (q : String), jsTrim q = "" →
        MocoApiService.searchUsers us q = us)
      ∧ (∀ ps : List Project, MocoApiService.searchProjects ps "" = ps)
      ∧ (∀ (ps : List Project) (q : String) (p : Project),
          p ∈ MocoApiService.searchProjects ps q
            ↔ p ∈ ps ∧ MocoApiService.projectMatches (jsToLower q) p = true)
      ∧ (∀ (us : List User) (q : String) (u : User), jsTrim q ≠ "" →
          (u ∈ MocoApiService.searchUsers us q
            ↔ u ∈ us ∧ MocoApiService.userMatches (jsToLower (jsTrim q)) u = true)) := by
  refine ⟨?_, ?_, ?_, ?_⟩
  · intro us q hq
    simp only [MocoApiService.searchUsers, hq]
    rfl
  · intro ps
    simp only [MocoApiService.searchProjects]
    apply List.filter_eq_self.mpr
    intro p _
    simp [MocoApiService.projectMatches, show jsToLower "" = "" from rfl,
      strIncludes_empty]
  · intro ps q p
    simp only [MocoApiService.searchProjects, List.mem_filter]
  · intro us q u hq
    have hlen : ¬(jsToLower (jsTrim q)).length = 0 := by
      rw [jsToLower_length]
      intro h
      exact hq ((string_length_zero_iff (jsTrim q)).mp h)
    simp only [MocoApiService.searchUsers, if_neg hlen, List.mem_filter]

/-- Witness for the amended C7: the whitespace query returns the full user
set; the empty query returns the full project set; and for the non-blank
queries "alp" and "ada" the membership tests reduce to the substring
predicate. -/
theorem claimC7_witness :
    MocoApiService.searchUsers [sampleUser] "   " = [sampleUser]
      ∧ MocoApiService.searchProjects [sampleProject] "" = [sampleProject]
      ∧ (sampleProject ∈ MocoApiService.searchProjects [sampleProject] "ALP"
          ↔ sampleProject ∈ [sampleProject]
            ∧ MocoApiService.projectMatches (jsToLower "ALP") sampleProject = true)
      ∧ (sampleUser ∈ MocoApiService.searchUsers [sampleUser] " Ada "
          ↔ sampleUser ∈ [sampleUser]
            ∧ MocoApiService.userMatches (jsToLower (jsTrim " Ada ")) sampleUser
              = true) := by
  have h := claimC7_search
  exact ⟨h.1 [sampleUser] "   " (by decide), h.2.1 [sampleProject],
    h.2.2.1 [sampleProject] "ALP" sampleProject,
    h.2.2.2 [sampleUser] " Ada " sampleUser (by decide)⟩

/-! ## Claim C8: API-key log redaction -/

/-- Claim C8: the logging-safe transform leaves a record without an
`Authorization` entry unchanged, replaces only the `Authorization` value
otherwise; a value without a (case-insensitive) `token=` marker becomes
`[REDACTED]`; a secret of at most 8 characters after the marker is fully
masked by at least 4 asterisks; a secret longer than 8 characters keeps
exactly its first 4 and last 4 characters around an ellipsis. -/
theorem claimC8_redaction :
    (∀ h : RequestHeaders, h.authorization = none →
        MocoApiService.sanitizeRequestHeaders h = h)
      ∧ (∀ (h : RequestHeaders) (a : String), h.authorization = some a →
          a.isEmpty = false →
          MocoApiService.sanitizeRequestHeaders h
            = { h with authorization := some (MocoApiService.sanitizeAuthValue a) })
      ∧ (∀ a : String, findSubIdx "token=".toList (jsToLower a).toList = none →
          MocoApiService.sanitizeAuthValue a = "[REDACTED]")
      ∧ (∀ (a : String) (idx : Nat),
          findSubIdx "token=".toList (jsToLower a).toList = some idx →
          (a.toList.drop (idx + 6)).length ≤ 8 →
          MocoApiService.sanitizeAuthValue a
              = String.mk (a.toList.take (idx + 6))
                ++ String.mk (List.replicate (max (a.toList.drop (idx + 6)).length 4) '*')
            ∧ 4 ≤ max (a.toList.drop (idx + 6)).length 4)
      ∧ (∀ (a : String) (idx : Nat),
          findSubIdx "token=".toList (jsToLower a).toList = some idx →
          8 < (a.toList.drop (idx + 6)).length →
          MocoApiService.sanitizeAuthValue a
            = String.mk (a.toList.take (idx + 6))
              ++ (String.mk ((a.toList.drop (idx + 6)).take 4)
                ++ ("..."
                  ++ String.mk ((a.toList.drop (idx + 6)).drop
                      ((a.toList.drop (idx + 6)).length - 4))))) := by
  refine ⟨?_, ?_, ?_, ?_, ?_⟩
  · intro h hnone
    simp only [MocoApiService.sanitizeRequestHeaders, hnone]
  · intro h a ha hempty
    simp only [MocoApiService.sanitizeRequestHeaders, ha, hempty]
    rfl
  · intro a hfind
    simp only [MocoApiService.sanitizeAuthValue, hfind]
  · intro a idx hfind hlen
    refine ⟨?_, le_max_right _ _⟩
    simp only [MocoApiService.sanitizeAuthValue, hfind, if_pos hlen]
    rfl
  · intro a idx hfind hlen
    simp only [MocoApiService.sanitizeAuthValue, hfind, if_neg (not_le.mpr hlen)]
    rfl

/-- Witness for C8: the record without `Authorization` is unchanged; the
10-character secret `abcdefghij` is shown as `abcd...ghij`; the 3-character
secret `abc` becomes four asterisks; a bearer value without `token=` is
fully redacted. -/
theorem claimC8_witness :
    MocoApiService.sanitizeRequestHeaders rhNone = rhNone
      ∧ MocoApiService.sanitizeAuthValue "Token token=abcdefghij"
          = "Token token=abcd...ghij"
      ∧ MocoApiService.sanitizeAuthValue "Token token=abc" = "Token token=****"
      ∧ MocoApiService.sanitizeRequestHeaders rhBearer
          = { rhBearer with authorization := some "[REDACTED]" } := by
  have h := claimC8_redaction
  refine ⟨h.1 rhNone rfl, ?_, ?_, ?_⟩
  · have hlong := h.2.2.2.2 "Token token=abcdefghij" 6 (by decide) (by decide)
    rw [hlong]
    decide
  · have hshort := (h.2.2.2.1 "Token token=abc" 6 (by decide) (by decide)).1
    rw [hshort]
    decide
  · have hred := h.2.2.1 "Bearer xyz" (by decide)
    have hrepl := h.2.1 rhBearer "Bearer xyz" rfl (by decide)
    rw [hrepl, hred]

/-! ## Claim C9: 404-to-empty normalization for getUserHolidays -/

/-- Claim C9: a request failure classified as a 404 produces the message
"Resource not found", which `getUserHolidays` turns into the empty array
instead of a thrown error; a successful response passes through, and every
other failure — one whose message does not contain "Resource not found" —
is re-thrown to the caller unchanged. -/
theorem claimC9_holidays_404 {H : Type} :
    (∀ statusText : String, handleMocoApiError 404 statusText = "Resource not found")
      ∧ (∀ statusText : String,
          MocoApiService.getUserHolidays (H := H)
              (Except.error (handleMocoApiError 404 statusText))
            = Except.ok [])
      ∧ (∀ v : List H,
          MocoApiService.getUserHolidays (Except.ok (ε := String) v) = Except.ok v)
      ∧ (∀ msg : String, strIncludes msg "Resource not found" = false →
          MocoApiService.getUserHolidays (H := H) (Except.error msg)
            = Except.error msg) := by
  have h404 : ∀ st : String, handleMocoApiError 404 st = "Resource not found" := by
    intro st
    simp [handleMocoApiError]
  refine ⟨h404, ?_, fun v => rfl, ?_⟩
  · intro st
    rw [h404 st]
    simp [MocoApiService.getUserHolidays,
      show strIncludes "Resource not found" "Resource not found" = true from by decide]
  · intro msg hmsg
    simp [MocoApiService.getUserHolidays, hmsg]

/-- Witness for C9: the classified 404 yields the empty list, a success
passes through, and the 500 message is re-thrown unchanged. -/
theorem claimC9_witness :
    MocoApiService.getUserHolidays (H := Nat)
        (Except.error (handleMocoApiError 404 "Not Found")) = Except.ok []
      ∧ MocoApiService.getUserHolidays (Except.ok (ε := String) [3]) = Except.ok [3]
      ∧ strIncludes "HTTP error 500: boom" "Resource not found" = false
      ∧ MocoApiService.getUserHolidays (H := Nat)
          (Except.error "HTTP error 500: boom") = Except.error "HTTP error 500: boom" := by
  have h := claimC9_holidays_404 (H := Nat)
  exact ⟨h.2.1 "Not Found", h.2.2.1 [3], by decide,
    h.2.2.2 "HTTP error 500: boom" (by decide)⟩
